import Mathlib

/-!
Shallow embedding of the grower-certificates tracker
(source files `tracker.py` and `tracker_streamlit.py`), together with
proofs about the embedded functions.

Conventions used throughout:
* Timestamps are modelled as integers counting minutes; one calendar day
  is 1440 minutes.  `pandas.Timedelta.days` is floor division of the
  difference by one day (a negative timedelta is normalised to a negative
  day count plus a nonnegative time-of-day part).
* A spreadsheet cell is `Cell`: a string, a parsed integer value
  (timestamp or day count), or the missing marker `Cell.na` (NaN / NaT).
* Date parsing (`pd.to_datetime(..., errors="coerce")` on a single cell)
  is an arbitrary parameter `parse : Cell -> Option Int`; an unparseable
  cell is `none`.
-/

/-- Warning window, `EXPIRY_WARNING_DAYS = 60` in both source files. -/
def EXPIRY_WARNING_DAYS : Int := 60

/-- Number of model time units (minutes) in one calendar day. -/
def minutesPerDay : Int := 1440

/-- One spreadsheet cell: a string, an integer value (a parsed timestamp
or a day count), or the missing marker (NaN / NaT). -/
inductive Cell where
  | na : Cell
  | str : String → Cell
  | int : Int → Cell
deriving DecidableEq, Repr

/-- Integer value of a numeric cell, `none` for NaN/NaT and strings;
this is how `pd.isna` sees the `Days_Until_Expiry` column. -/
def cellToOptInt : Cell → Option Int
  | Cell.int v => some v
  | _ => none

/-- String value of a cell (`""` for non-strings); used to read the
`Status` column, whose cells are always strings by construction. -/
def cellStr : Cell → String
  | Cell.str s => s
  | _ => ""

/-- tracker_streamlit.py line 50:
`df["Days_Until_Expiry"] = (df["Expiry Date"] - today).dt.days`.
`pandas.Timedelta.days` is floor division of the difference by one day;
an unparseable expiry (NaT) propagates to NaN (`none`). -/
def daysUntilExpiry (expiry : Option Int) (now : Int) : Option Int :=
  expiry.map (fun e => Int.fdiv (e - now) minutesPerDay)

/-- tracker_streamlit.py lines 52-59, function `status_from_days`:
NaN days is "Unknown", negative days "Expired", `days <= 60`
"Expiring Soon", otherwise "Valid". -/
def status_from_days : Option Int → String
  | none => "Unknown"
  | some days =>
      if days < 0 then "Expired"
      else if days ≤ EXPIRY_WARNING_DAYS then "Expiring Soon"
      else "Valid"

/-- tracker.py lines 35-45, function `get_status`: the expiry string is
parsed (`none` models the `except` branch for an unparseable value) and
compared against `now` and `now + timedelta(days=60)`.  The two
`datetime.now()` calls of the source are modelled as a single instant
`now`. -/
def get_status (expiry : Option Int) (now : Int) : String :=
  match expiry with
  | none => "Unknown"
  | some e =>
      if e < now then "Expired"
      else if e < now + EXPIRY_WARNING_DAYS * minutesPerDay then "Expiring Soon"
      else "Valid"

/-- Modelled from the spec: "DaysUntilExpiry = (expiry date − now),
truncated to whole days" read with truncation toward zero, for
comparison with the floor division the code performs. -/
def specDaysTruncated (e now : Int) : Int :=
  Int.tdiv (e - now) minutesPerDay

/-- Python `str.lower()` on the ASCII range, character by character
(`String.toLower` itself is opaque to kernel reduction, so the model
works on the underlying character list; all header and search text of
this repository is ASCII). -/
def pyLower (s : String) : List Char :=
  s.data.map Char.toLower

/-- ASCII whitespace, the characters `str.strip()` removes. -/
def isPyWhitespace (c : Char) : Bool :=
  c == ' ' || c == '\t' || c == '\n' || c == '\r' || c == '\x0b' || c == '\x0c'

/-- Python `str.strip()`: drop leading and trailing whitespace. -/
def pyStrip (s : String) : String :=
  String.mk (((s.data.dropWhile isPyWhitespace).reverse.dropWhile isPyWhitespace).reverse)

/-- Literal prefix test on character lists. -/
def litAtStart : List Char → List Char → Bool
  | [], _ => true
  | _ :: _, [] => false
  | p :: ps, c :: cs => p == c && litAtStart ps cs

/-- Literal substring test: the pattern occurs somewhere in the text. -/
def litSubstr (pat : List Char) : List Char → Bool
  | [] => litAtStart pat []
  | c :: cs => litAtStart pat (c :: cs) || litSubstr pat cs

/-!
Embedding of the relevant fragment of `difflib` (CPython), exactly as
used by the sources: `difflib.get_close_matches(word, headers, n=1,
cutoff=0.5)` (tracker_streamlit.py line 37).  `SequenceMatcher` is run
with `isjunk=None`, and `autojunk` never fires because every header is
far shorter than 200 characters, so there is no junk at all.  The
`real_quick_ratio`/`quick_ratio` pre-filters of `get_close_matches` are
upper bounds of `ratio` and therefore do not change which candidates
pass the cutoff; only `ratio` is modelled.  Ratios are kept as exact
rational pairs `(2*M, len(a)+len(b))`; for header-sized strings the
floating point comparisons of the original are exact, because distinct
ratios differ by far more than one ulp.
-/

/-- Ascending list of positions of character `c` in `b` (difflib's
`b2j` chains, junk-free). -/
def b2j (b : List Char) (c : Char) : List Nat :=
  (List.range b.length).filter (fun j => b.getD j c == c && decide (j < b.length))

/-- Current best block of `find_longest_match`: start in `a`, start in
`b`, and size. -/
structure Best where
  besti : Nat
  bestj : Nat
  bestsize : Nat
deriving DecidableEq, Repr

/-- Lookup in the `j2len` association list, defaulting to 0 like
`j2len.get(j-1, 0)`. -/
def lookupJ2 (m : List (Nat × Nat)) (j : Nat) : Nat :=
  match m.find? (fun p => p.1 == j) with
  | some p => p.2
  | none => 0

/-- Inner loop of `find_longest_match` over the positions of `a[i]`
in `b`: skip `j < blo`, break at `j >= bhi`, extend runs via `j2len`,
and track the best block.  Returns the new `j2len` and the best so
far. -/
def flmInner (blo bhi i : Nat) :
    List Nat → List (Nat × Nat) → List (Nat × Nat) → Best → (List (Nat × Nat)) × Best
  | [], _, newm, best => (newm, best)
  | j :: js, oldm, newm, best =>
      if j < blo then flmInner blo bhi i js oldm newm best
      else if bhi ≤ j then (newm, best)
      else
        let k := if j == 0 then 1 else lookupJ2 oldm (j - 1) + 1
        let newm2 := (j, k) :: newm
        let best2 := if best.bestsize < k then ⟨i + 1 - k, j + 1 - k, k⟩ else best
        flmInner blo bhi i js oldm newm2 best2

/-- Outer loop of `find_longest_match` over `i` in `[alo, ahi)`. -/
def flmOuter (a b : List Char) (blo bhi : Nat) :
    List Nat → List (Nat × Nat) → Best → Best
  | [], _, best => best
  | i :: is, m, best =>
      let r := flmInner blo bhi i (b2j b (a.getD i ' ')) m [] best
      flmOuter a b blo bhi is r.1 r.2

/-- Leftward extension of the best block over equal characters
(`while besti > alo and bestj > blo and a[besti-1] == b[bestj-1]`);
the junk variants of these loops never fire because there is no junk.
The fuel is `besti`, which strictly decreases. -/
def extendLeft (a b : List Char) (alo blo : Nat) : Nat → Best → Best
  | 0, st => st
  | fuel + 1, st =>
      if decide (alo < st.besti) && decide (blo < st.bestj) &&
          (a.getD (st.besti - 1) ' ' == b.getD (st.bestj - 1) ' ') then
        extendLeft a b alo blo fuel ⟨st.besti - 1, st.bestj - 1, st.bestsize + 1⟩
      else st

/-- Rightward extension of the best block over equal characters. -/
def extendRight (a b : List Char) (ahi bhi : Nat) : Nat → Best → Best
  | 0, st => st
  | fuel + 1, st =>
      if decide (st.besti + st.bestsize < ahi) && decide (st.bestj + st.bestsize < bhi) &&
          (a.getD (st.besti + st.bestsize) ' ' == b.getD (st.bestj + st.bestsize) ' ') then
        extendRight a b ahi bhi fuel ⟨st.besti, st.bestj, st.bestsize + 1⟩
      else st

/-- CPython `SequenceMatcher.find_longest_match(alo, ahi, blo, bhi)`
with no junk. -/
def findLongestMatch (a b : List Char) (alo ahi blo bhi : Nat) : Best :=
  let st0 := flmOuter a b blo bhi (List.range' alo (ahi - alo)) [] ⟨alo, blo, 0⟩
  let st1 := extendLeft a b alo blo st0.besti st0
  extendRight a b ahi bhi (ahi - (st1.besti + st1.bestsize)) st1

/-- Total size of the matching blocks of `get_matching_blocks`,
computed with the same LIFO work queue as CPython (the traversal order
does not affect the sum).  The fuel `2*(|a|+|b|)+1` bounds the number
of pops: every splitting pop consumes at least one matched character,
and at most `min(|a|,|b|)` characters can ever be matched. -/
def matchedTotal (a b : List Char) : Nat → List (Nat × Nat × Nat × Nat) → Nat
  | 0, _ => 0
  | _, [] => 0
  | fuel + 1, (alo, ahi, blo, bhi) :: rest =>
      let st := findLongestMatch a b alo ahi blo bhi
      if st.bestsize == 0 then matchedTotal a b fuel rest
      else
        let rest1 := if decide (alo < st.besti) && decide (blo < st.bestj) then
            (alo, st.besti, blo, st.bestj) :: rest else rest
        let rest2 := if decide (st.besti + st.bestsize < ahi) &&
            decide (st.bestj + st.bestsize < bhi) then
            (st.besti + st.bestsize, ahi, st.bestj + st.bestsize, bhi) :: rest1 else rest1
        st.bestsize + matchedTotal a b fuel rest2

/-- The exact value of `SequenceMatcher.ratio()` as a rational pair
`(numerator, denominator)` with positive denominator: `2*M / (la+lb)`,
and 1.0 when both sequences are empty. -/
def ratioPair (a b : List Char) : Nat × Nat :=
  let t := a.length + b.length
  if t == 0 then (1, 1)
  else (2 * matchedTotal a b (2 * t + 1) [(0, a.length, 0, b.length)], t)

/-- Exact comparison `ratio >= 0.5` (the cutoff). -/
def ratioGeHalf (p : Nat × Nat) : Bool :=
  decide (p.2 ≤ 2 * p.1)

/-- Exact comparison `p > q` between two ratios. -/
def ratioGt (p q : Nat × Nat) : Bool :=
  decide (q.1 * p.2 < p.1 * q.2)

/-- Exact equality between two ratios. -/
def ratioEq (p q : Nat × Nat) : Bool :=
  decide (p.1 * q.2 = q.1 * p.2)

/-- Lexicographic comparison of character lists, matching Python string
comparison by code point. -/
def charListLt : List Char → List Char → Bool
  | [], [] => false
  | [], _ :: _ => true
  | _ :: _, [] => false
  | c :: cs, d :: ds => if c < d then true else if d < c then false else charListLt cs ds

/-- The sources call `difflib.get_close_matches(word, headers, n=1,
cutoff=0.5)` and use `match[0]`; with `n = 1` CPython returns
`[max(result)]` where `result` holds pairs `(ratio, x)` for every
candidate `x` with `ratio >= cutoff`, compared lexicographically
(`max` keeps the earlier element on exact ties).  `seq1` is the
candidate header, `seq2` the canonical word. -/
def bestMatch (word : String) (possibilities : List String) : Option String :=
  (possibilities.foldl (fun acc x =>
    let r := ratioPair x.data word.data
    if ratioGeHalf r then
      match acc with
      | none => some (r, x)
      | some (rb, b) =>
          if ratioGt r rb || (ratioEq r rb && charListLt b.data x.data) then some (r, x)
          else some (rb, b)
    else acc) none).map (fun p => p.2)

/-- tracker_streamlit.py lines 12-17: the canonical schema, a dict whose
keys are iterated in insertion order and whose values equal its keys. -/
def EXPECTED : List (String × String) :=
  [("Supplier", "Supplier"), ("Certification Body", "Certification Body"),
   ("Certificate", "Certificate"), ("Expiry Date", "Expiry Date")]

/-- The canonical field names (the values of `EXPECTED`). -/
def canonicalFields : List String := EXPECTED.map Prod.snd

/-- Python dict assignment `m[k] = v`: replace the value at an existing
key in place, otherwise append the pair. -/
def dictInsert (k v : String) (m : List (String × String)) : List (String × String) :=
  if k ∈ m.map Prod.fst then m.map (fun p => if p.1 = k then (k, v) else p)
  else m ++ [(k, v)]

/-- First-match association lookup (how a Python dict is read). -/
def lookupMap (k : String) : List (String × String) → Option String
  | [] => none
  | p :: m => if p.1 = k then some p.2 else lookupMap k m

/-- The last canonical field, in iteration order, whose best fuzzy
match is the raw header `r`; this is the claimant that ends up owning
`r` in the reconciled mapping. -/
def lastClaimantValue (headers : List String) (r : String) : Option String :=
  EXPECTED.foldl (fun acc kv =>
    match bestMatch kv.1 headers with
    | some raw => if raw = r then some kv.2 else acc
    | none => acc) none

/-- tracker_streamlit.py lines 35-39: for each canonical field in
iteration order, bind its best fuzzy match (if any) to the canonical
name with a dict write, so a later canonical field overwrites an
earlier binding of the same raw header. -/
def col_map (headers : List String) : List (String × String) :=
  EXPECTED.foldl (fun m kv =>
    match bestMatch kv.1 headers with
    | some raw => dictInsert raw kv.2 m
    | none => m) []

/-!
Embedding of the Certificate Loader of tracker_streamlit.py
(`load_and_map_certificates`, lines 22-62).  A data frame is modelled
column-wise: a row count plus a list of named columns.  Reading the raw
bytes (`pd.read_excel`, with the header-on-row-3 fallback) is outside
the model; the loader receives the parsed tabular input.
-/

/-- A pandas data frame, column oriented: the number of rows and the
named columns in order. -/
structure Frame where
  nrows : Nat
  cols : List (String × List Cell)
deriving DecidableEq, Repr

/-- The column names of a column list, in order. -/
def colNames (cols : List (String × List Cell)) : List String :=
  cols.map Prod.fst

/-- ASCII case-insensitive test for the prefix `unnamed`, i.e. the
regex `^Unnamed` with `case=False` (tracker_streamlit.py line 32). -/
def startsWithUnnamed (s : String) : Bool :=
  litAtStart "unnamed".data (pyLower s)

/-- tracker_streamlit.py lines 31-32: strip surrounding whitespace from
every column name, then drop the auto-generated `Unnamed` placeholder
columns. -/
def tidyCols (cols : List (String × List Cell)) : List (String × List Cell) :=
  (cols.map (fun p => (pyStrip p.1, p.2))).filter (fun p => !(startsWithUnnamed p.1))

/-- `df.rename(columns=m)`: replace every column name that is a key of
`m` by its image, leaving the cells untouched. -/
def renameCols (m : List (String × String)) (cols : List (String × List Cell)) :
    List (String × List Cell) :=
  cols.map (fun p =>
    match lookupMap p.1 m with
    | some c => (c, p.2)
    | none => p)

/-- tracker_streamlit.py lines 43-45: for every canonical field, in
order, synthesize an empty column (`df[col] = ""`) when no column of
that name is present. -/
def ensureCols (n : Nat) (cols : List (String × List Cell)) : List (String × List Cell) :=
  EXPECTED.foldl (fun acc kv =>
    if kv.2 ∈ colNames acc then acc
    else acc ++ [(kv.2, List.replicate n (Cell.str ""))]) cols

/-- `df[name] = vals`: overwrite every existing column of that name,
otherwise append a new column. -/
def setCol (name : String) (vals : List Cell) (cols : List (String × List Cell)) :
    List (String × List Cell) :=
  if name ∈ colNames cols then
    cols.map (fun p => if p.1 = name then (name, vals) else p)
  else cols ++ [(name, vals)]

/-- First column of the given name, as pandas column selection reads
it. -/
def getCol (name : String) : List (String × List Cell) → Option (List Cell)
  | [] => none
  | p :: cols => if p.1 = name then some p.2 else getCol name cols

/-- The columns after tidying and fuzzy renaming
(tracker_streamlit.py lines 31-40). -/
def reconciledCols (f : Frame) : List (String × List Cell) :=
  renameCols (col_map (colNames (tidyCols f.cols))) (tidyCols f.cols)

/-- The columns after the canonical-field synthesis loop
(tracker_streamlit.py lines 43-45). -/
def ensuredCols (f : Frame) : List (String × List Cell) :=
  ensureCols f.nrows (reconciledCols f)

/-- The raw `Expiry Date` column the loader reads
(tracker_streamlit.py line 48). -/
def expiryRawCol (f : Frame) : List Cell :=
  (getCol "Expiry Date" (ensuredCols f)).getD []

/-- tracker_streamlit.py line 48:
`df["Expiry Date"] = pd.to_datetime(df["Expiry Date"], errors="coerce")`,
per cell; a parse failure becomes NaT. -/
def parsedExpiryCol (parse : Cell → Option Int) (f : Frame) : List Cell :=
  (expiryRawCol f).map (fun c =>
    match parse c with
    | some v => Cell.int v
    | none => Cell.na)

/-- tracker_streamlit.py line 50: the `Days_Until_Expiry` column,
NaT propagating to NaN. -/
def daysCol (parse : Cell → Option Int) (now : Int) (f : Frame) : List Cell :=
  (expiryRawCol f).map (fun c =>
    match daysUntilExpiry (parse c) now with
    | some d => Cell.int d
    | none => Cell.na)

/-- tracker_streamlit.py line 61: the `Status` column, obtained by
applying `status_from_days` to every day count. -/
def statusCol (parse : Cell → Option Int) (now : Int) (f : Frame) : List Cell :=
  (daysCol parse now f).map (fun c => Cell.str (status_from_days (cellToOptInt c)))

/-- tracker_streamlit.py lines 22-62, `load_and_map_certificates`:
tidy and reconcile the columns, synthesize missing canonical columns,
parse the expiry dates (`errors="coerce"`, so failures become NaT),
derive `Days_Until_Expiry` and `Status`.  `parse` stands for
`pd.to_datetime` on one cell and `now` for `pd.Timestamp.today()`. -/
def load_and_map_certificates (parse : Cell → Option Int) (now : Int) (f : Frame) : Frame :=
  ⟨f.nrows, setCol "Status" (statusCol parse now f)
    (setCol "Days_Until_Expiry" (daysCol parse now f)
      (setCol "Expiry Date" (parsedExpiryCol parse f) (ensuredCols f)))⟩

/-!
Embedding of the Query/Filter Layer (tracker_streamlit.py lines
136-158).  A certificate row is reduced to the fields the filters
read — the `Supplier` cell and the `Status` string — plus the
remaining cells, which no predicate inspects.
-/

/-- One row of the canonical certificate table, as seen by the
filters. -/
structure CertRec where
  supplier : Cell
  status : String
  rest : List Cell
deriving DecidableEq, Repr

/-- The sentinel of the supplier selector (tracker_streamlit.py
line 137). -/
def ALL_GROWERS : String := "(All growers)"

/-- Character match of the regex fragment the model supports: a literal
character, or the `.` wildcard. -/
def regexCharMatch (p c : Char) : Bool :=
  p == '.' || p == c

/-- Does the pattern match a prefix of the text, character by
character? -/
def regexAtStart : List Char → List Char → Bool
  | [], _ => true
  | _ :: _, [] => false
  | p :: ps, c :: cs => regexCharMatch p c && regexAtStart ps cs

/-- Unanchored regex search (`re.search`): the pattern matches at some
position of the text. -/
def regexSearch (pat : List Char) : List Char → Bool
  | [] => regexAtStart pat []
  | c :: cs => regexAtStart pat (c :: cs) || regexSearch pat cs

/-- tracker_streamlit.py line 156:
`filtered["Supplier"].str.contains(search, case=False, na=False)`.
`Series.str.contains` defaults to `regex=True`, so the search text is a
regular expression; `case=False` is modelled by lowercasing both sides
(ASCII), and `na=False` maps the non-string cells to `False`.  The
model covers patterns built from literal characters and the `.`
metacharacter; the other regex metacharacters are outside the scope of
this development. -/
def supplierContainsCI (c : Cell) (search : String) : Bool :=
  match c with
  | Cell.str s => regexSearch (pyLower search) (pyLower s)
  | _ => false

/-- tracker_streamlit.py lines 152-158: the three optional row filters,
applied in sequence to a fresh copy of the table — an exact supplier
match, a case-insensitive search on the supplier, and an exact status
match. -/
def applyFilters (selected search show_only : String) (recs : List CertRec) : List CertRec :=
  let r1 := if selected = ALL_GROWERS then recs
    else recs.filter (fun r => decide (r.supplier = Cell.str selected))
  let r2 := if search = "" then r1
    else r1.filter (fun r => supplierContainsCI r.supplier search)
  if show_only = "All" then r2
  else r2.filter (fun r => decide (r.status = show_only))

/-- The rows of a loaded frame, as the filters see them: the `Supplier`
cell paired with the `Status` string of the same row. -/
def recordsOf (f : Frame) : List CertRec :=
  (((getCol "Supplier" f.cols).getD []).zip ((getCol "Status" f.cols).getD [])).map
    (fun p => ⟨p.1, cellStr p.2, []⟩)

/-!
Embedding of the contact-entry submission (tracker_streamlit.py lines
211-233) and of the in-memory contact log it appends to.
-/

/-- One contact-log entry: parsed date (`none` is NaT), supplier,
action, notes. -/
structure LogEntry where
  date : Option Int
  supplier : String
  action : String
  notes : String
deriving DecidableEq, Repr

/-- tracker_streamlit.py lines 216-228: a submitted contact form.  When
the supplier selector is on the `(All growers)` sentinel the submission
is rejected with a validation message (`st.error`) and the log is left
untouched; otherwise one entry for the selected supplier is appended
(`pd.concat(..., ignore_index=True)`).  The boolean is `true` exactly
when the submission was accepted. -/
def contact_form (selected : String) (log : List LogEntry) (cdate : Option Int)
    (caction cnotes : String) : List LogEntry × Bool :=
  if selected = ALL_GROWERS then (log, false)
  else (log ++ [⟨cdate, selected, caction, cnotes⟩], true)

/-!
Spec-side definitions, written from the wording of the specification to
be compared with what the code computes.
-/

/-- Modelled from the spec: literal (metacharacter-free) patterns, for
which a regex search and a substring test should agree.  The excluded
characters are the `re` metacharacters. -/
def noMetaPattern (pat : String) : Bool :=
  (pyLower pat).all (fun c =>
    !(c ∈ ['.', '^', '$', '*', '+', '?', Char.ofNat 123, Char.ofNat 125,
           '[', ']', '(', ')', '|', Char.ofNat 92]))

/-- Modelled from the spec: "supplier contains substring,
case-insensitively" — plain substring containment after lowercasing,
with a non-string supplier never matching. -/
def specContainsSubstrCI (c : Cell) (search : String) : Bool :=
  match c with
  | Cell.str s => litSubstr (pyLower search) (pyLower s)
  | _ => false

set_option maxRecDepth 8000

/-!
Theorems about the embedded program, one group per property of the
specification.
-/

/-- C1 counterexample: at `d = t` both classifiers return
"Expiring Soon", not the "Expired" the claim requires, and at
`d = t + window` `status_from_days` returns "Expiring Soon", not the
"Valid" the claim requires. -/
theorem C1_counterexample :
    status_from_days (daysUntilExpiry (some 0) 0) = "Expiring Soon" ∧
    get_status (some 0) 0 = "Expiring Soon" ∧
    status_from_days (daysUntilExpiry (some (60 * minutesPerDay)) 0) = "Expiring Soon" ∧
    get_status (some (60 * minutesPerDay)) 0 = "Valid" ∧
    "Expiring Soon" ≠ "Expired" ∧ "Expiring Soon" ≠ "Valid" := by
  refine ⟨by decide, by decide, by decide, by decide, by decide, by decide⟩

/-- C1 (amended): for a parseable expiry `d` and evaluation time `t`
(in minutes), `d < t` gives "Expired" in both classifiers;
`get_status` gives "Expiring Soon" for `t ≤ d < t + window` and
"Valid" for `d ≥ t + window`; the day-based `status_from_days`
composed with `Days_Until_Expiry` gives "Expiring Soon" for
`t ≤ d < t + window + 1 day` — so `d = t + window` is still
"Expiring Soon" there — and "Valid" only beyond that.  In particular
`d = t` yields "Expiring Soon", not "Expired", in both. -/
theorem C1_amended (d t : Int) :
    get_status (some d) t =
      (if d < t then "Expired"
       else if d < t + EXPIRY_WARNING_DAYS * minutesPerDay then "Expiring Soon"
       else "Valid") ∧
    status_from_days (daysUntilExpiry (some d) t) =
      (if d < t then "Expired"
       else if d < t + (EXPIRY_WARNING_DAYS + 1) * minutesPerDay then "Expiring Soon"
       else "Valid") := by
  constructor
  · rfl
  · show status_from_days (some (Int.fdiv (d - t) minutesPerDay)) = _
    rw [show minutesPerDay = 1440 from rfl, Int.fdiv_eq_ediv _ (by norm_num)]
    show (if (d - t) / 1440 < 0 then "Expired"
      else if (d - t) / 1440 ≤ EXPIRY_WARNING_DAYS then "Expiring Soon" else "Valid") = _
    rw [show EXPIRY_WARNING_DAYS = 60 from rfl]
    split_ifs <;> first | rfl | omega

/-- C2: an unparseable expiry is classified "Unknown" by both
classifiers, independently of the evaluation time `t`; both embedded
functions are total, so no exception escapes. -/
theorem C2_unparseable_unknown (t : Int) :
    get_status none t = "Unknown" ∧
    status_from_days (daysUntilExpiry none t) = "Unknown" := by
  exact ⟨rfl, rfl⟩

/-- C2 witness at a concrete evaluation time. -/
theorem C2_unparseable_unknown_witness :
    get_status none 12345 = "Unknown" ∧
    status_from_days (daysUntilExpiry none 12345) = "Unknown" :=
  C2_unparseable_unknown 12345

/-- C5 counterexample: with the expiry one minute before `now`, the
code computes `Days_Until_Expiry = -1` (floor), while truncation
toward zero of the difference gives `0`. -/
theorem C5_counterexample :
    daysUntilExpiry (some 0) 1 = some (-1) ∧
    specDaysTruncated 0 1 = 0 ∧ ((-1 : Int) ≠ 0) := by
  refine ⟨by decide, by decide, by decide⟩

/-- C5 (amended): for a parseable expiry, `Days_Until_Expiry` is the
difference rounded down (floored) to whole days — the unique `k` with
`k` days `≤ expiry − now <` `k+1` days — which agrees with truncation
only when the difference is nonnegative or a whole number of days; for
an unparseable expiry it is absent. -/
theorem C5_amended (e t k : Int) :
    (daysUntilExpiry (some e) t = some k ↔
      minutesPerDay * k ≤ e - t ∧ e - t < minutesPerDay * (k + 1)) ∧
    daysUntilExpiry none t = none := by
  constructor
  · show some (Int.fdiv (e - t) minutesPerDay) = some k ↔ _
    rw [show minutesPerDay = 1440 from rfl, Int.fdiv_eq_ediv _ (by norm_num), Option.some_inj]
    omega
  · rfl

/-- C7: reconciling the already-canonical header set yields the
identity mapping, every canonical header bound to itself (each exact
match has ratio 1.0, strictly above every other candidate). -/
theorem C7_identity_on_canonical :
    col_map ["Supplier", "Certification Body", "Certificate", "Expiry Date"] =
      [("Supplier", "Supplier"), ("Certification Body", "Certification Body"),
       ("Certificate", "Certificate"), ("Expiry Date", "Expiry Date")] := by
  decide

/-- C9: a submission with the `(All growers)` sentinel selected is
rejected (the flag is the `st.error` validation message) and the
in-memory log is returned unchanged; a submission with a concrete
supplier is accepted and appends exactly one entry, carrying that
supplier, at the end of the log. -/
theorem C9_submission_validation (selected : String) (log : List LogEntry)
    (d : Option Int) (a n : String) :
    (selected = ALL_GROWERS →
        contact_form selected log d a n = (log, false)) ∧
    (selected ≠ ALL_GROWERS →
        contact_form selected log d a n = (log ++ [⟨d, selected, a, n⟩], true) ∧
        (contact_form selected log d a n).1.length = log.length + 1) := by
  constructor
  · intro h
    simp [contact_form, h]
  · intro h
    constructor
    · simp [contact_form, h]
    · simp [contact_form, h]

/-- C9 witness: the rejected case at the sentinel leaves a concrete
log unchanged, and the accepted case at supplier "Acme" appends one
entry. -/
theorem C9_submission_validation_witness :
    contact_form ALL_GROWERS [⟨some 5, "Acme", "Call", "ok"⟩] (some 9) "Email" "x"
      = ([⟨some 5, "Acme", "Call", "ok"⟩], false) ∧
    contact_form "Acme" [⟨some 5, "Acme", "Call", "ok"⟩] (some 9) "Email" "x"
      = ([⟨some 5, "Acme", "Call", "ok"⟩, ⟨some 9, "Acme", "Email", "x"⟩], true) :=
  ⟨(C9_submission_validation ALL_GROWERS [⟨some 5, "Acme", "Call", "ok"⟩]
      (some 9) "Email" "x").1 rfl,
   ((C9_submission_validation "Acme" [⟨some 5, "Acme", "Call", "ok"⟩]
      (some 9) "Email" "x").2 (by decide)).1⟩

/-- C4 counterexample: over the raw header list `["Certification"]`
the canonical fields "Certification Body" (processed second) and
"Certificate" (processed third) both best-match the raw header
"Certification" above the cutoff, yet the final mapping binds it to
"Certificate" — the canonical field processed last — and not to the
first claimant "Certification Body" required by the claim. -/
theorem C4_counterexample :
    bestMatch "Certification Body" ["Certification"] = some "Certification" ∧
    bestMatch "Certificate" ["Certification"] = some "Certification" ∧
    col_map ["Certification"] = [("Certification", "Certificate")] ∧
    col_map ["Certification"] ≠ [("Certification", "Certification Body")] := by
  refine ⟨by decide, by decide, by decide, by decide⟩

/-- Replacing the value at a key inside an association list only
changes the lookup at that key, and only when the key occurs. -/
lemma lookupMap_replaceAll (r k v : String) (m : List (String × String)) :
    lookupMap r (m.map (fun p => if p.1 = k then (k, v) else p)) =
      if k = r ∧ k ∈ m.map Prod.fst then some v else lookupMap r m := by
  induction m with
  | nil => simp [lookupMap]
  | cons p m ih =>
    simp only [List.map_cons, lookupMap, List.mem_cons]
    by_cases hp : p.1 = k
    · by_cases hkr : k = r
      · rw [if_pos hp, if_pos (show (k, v).1 = r from hkr),
          if_pos ⟨hkr, Or.inl hp.symm⟩]
      · have hpr : ¬ (p.1 = r) := by rw [hp]; exact hkr
        rw [if_pos hp, if_neg (show ¬ ((k, v).1 = r) from hkr), ih,
          if_neg (show ¬ (k = r ∧ k ∈ List.map Prod.fst m) from fun h => hkr h.1),
          if_neg (show ¬ (k = r ∧ (k = p.1 ∨ k ∈ List.map Prod.fst m)) from fun h => hkr h.1),
          if_neg hpr]
    · by_cases hpr : p.1 = r
      · have hkr : ¬ (k = r) := by
          intro h
          exact hp (by rw [hpr, h])
        rw [if_neg hp, if_pos hpr,
          if_neg (show ¬ (k = r ∧ (k = p.1 ∨ k ∈ List.map Prod.fst m)) from fun h => hkr h.1),
          if_pos hpr]
      · rw [if_neg hp, if_neg hpr, ih]
        by_cases hkm : k = r ∧ k ∈ List.map Prod.fst m
        · rw [if_pos hkm, if_pos ⟨hkm.1, Or.inr hkm.2⟩]
        · have hk2 : ¬ (k = r ∧ (k = p.1 ∨ k ∈ List.map Prod.fst m)) := by
            intro h
            rcases h.2 with h2 | h2
            · exact hp h2.symm
            · exact hkm ⟨h.1, h2⟩
          rw [if_neg hkm, if_neg hk2, if_neg hpr]

/-- Appending a fresh key to an association list only changes the
lookup at that key. -/
lemma lookupMap_append_fresh (r k v : String) (m : List (String × String))
    (h : k ∉ m.map Prod.fst) :
    lookupMap r (m ++ [(k, v)]) = if k = r then some v else lookupMap r m := by
  induction m with
  | nil => by_cases hkr : k = r <;> simp [lookupMap, hkr]
  | cons p m ih =>
    simp only [List.map_cons, List.mem_cons] at h
    push_neg at h
    simp only [List.cons_append, lookupMap]
    by_cases hpr : p.1 = r
    · have hkr : ¬ (k = r) := by
        intro hkr
        exact h.1 (by rw [hkr, hpr])
      simp [hpr, hkr]
    · simp only [if_neg hpr]
      exact ih h.2

/-- A Python dict write `m[k] = v` changes the lookup exactly at `k`. -/
lemma lookupMap_dictInsert (r k v : String) (m : List (String × String)) :
    lookupMap r (dictInsert k v m) = if k = r then some v else lookupMap r m := by
  unfold dictInsert
  by_cases hany : k ∈ m.map Prod.fst
  · rw [if_pos hany, lookupMap_replaceAll]
    by_cases hkr : k = r
    · rw [if_pos ⟨hkr, hany⟩, if_pos hkr]
    · rw [if_neg (fun h => hkr h.1), if_neg hkr]
  · rw [if_neg hany]
    exact lookupMap_append_fresh r k v m hany

/-- Dict writes preserve the key list when the key exists, and append
the key otherwise; either way distinctness of keys is preserved. -/
lemma dictInsert_keys_nodup (k v : String) (m : List (String × String))
    (h : (m.map Prod.fst).Nodup) : ((dictInsert k v m).map Prod.fst).Nodup := by
  unfold dictInsert
  by_cases hany : k ∈ m.map Prod.fst
  · rw [if_pos hany]
    have heq : (m.map (fun p => if p.1 = k then (k, v) else p)).map Prod.fst = m.map Prod.fst := by
      rw [List.map_map]
      apply List.map_congr_left
      intro p _
      by_cases hp : p.1 = k <;> simp [hp]
    rw [heq]
    exact h
  · rw [if_neg hany]
    simp only [List.map_append, List.map_cons, List.map_nil]
    rw [List.nodup_append]
    refine ⟨h, List.nodup_singleton k, ?_⟩
    intro a ha hb
    simp only [List.mem_singleton] at hb
    subst hb
    exact hany ha

/-- The reconciler fold keeps association-list keys distinct. -/
lemma colmap_fold_keys_nodup (headers : List String) :
    ∀ (l : List (String × String)) (m : List (String × String)),
      (m.map Prod.fst).Nodup →
      ((l.foldl (fun m kv =>
          match bestMatch kv.1 headers with
          | some raw => dictInsert raw kv.2 m
          | none => m) m).map Prod.fst).Nodup := by
  intro l
  induction l with
  | nil => intro m h; exact h
  | cons kv l ih =>
    intro m h
    simp only [List.foldl_cons]
    cases hbm : bestMatch kv.1 headers with
    | none => exact ih m h
    | some raw => exact ih (dictInsert raw kv.2 m) (dictInsert_keys_nodup raw kv.2 m h)

/-- Along the reconciler fold, the lookup at a raw header is decided by
the last canonical field that claimed it. -/
lemma lookupMap_colmap_fold (headers : List String) (r : String) :
    ∀ (l : List (String × String)) (m : List (String × String)),
      lookupMap r (l.foldl (fun m kv =>
          match bestMatch kv.1 headers with
          | some raw => dictInsert raw kv.2 m
          | none => m) m) =
        l.foldl (fun acc kv =>
          match bestMatch kv.1 headers with
          | some raw => if raw = r then some kv.2 else acc
          | none => acc) (lookupMap r m) := by
  intro l
  induction l with
  | nil => intro m; rfl
  | cons kv l ih =>
    intro m
    simp only [List.foldl_cons]
    cases hbm : bestMatch kv.1 headers with
    | none => exact ih m
    | some raw =>
      rw [ih (dictInsert raw kv.2 m), lookupMap_dictInsert]

/-- C4 (amended): in the reconciled mapping each raw header is bound to
at most one canonical field (the mapping's keys are distinct), and when
several canonical fields best-match the same raw header the canonical
field processed last in the fixed iteration order keeps the binding:
the lookup at any raw header equals the value of its last claimant,
each dict write overwriting the earlier binding. -/
theorem C4_amended_last_claimant_wins (headers : List String) (r : String) :
    ((col_map headers).map Prod.fst).Nodup ∧
    lookupMap r (col_map headers) = lastClaimantValue headers r := by
  constructor
  · exact colmap_fold_keys_nodup headers EXPECTED [] (by simp)
  · exact lookupMap_colmap_fold headers r EXPECTED []

/-- The synthesis step of the loader never removes a column name. -/
lemma ensure_step_preserves (n : Nat) (kv : String × String)
    (acc : List (String × List Cell)) (x : String) (h : x ∈ colNames acc) :
    x ∈ colNames (if kv.2 ∈ colNames acc then acc
      else acc ++ [(kv.2, List.replicate n (Cell.str ""))]) := by
  by_cases hc : kv.2 ∈ colNames acc
  · rw [if_pos hc]; exact h
  · rw [if_neg hc]
    simp only [colNames, List.map_append]
    exact List.mem_append_left _ h

/-- The synthesis fold never removes a column name. -/
lemma ensure_fold_preserves (n : Nat) (l : List (String × String)) :
    ∀ (acc : List (String × List Cell)) (x : String), x ∈ colNames acc →
      x ∈ colNames (l.foldl (fun acc kv =>
        if kv.2 ∈ colNames acc then acc
        else acc ++ [(kv.2, List.replicate n (Cell.str ""))]) acc) := by
  induction l with
  | nil => intro acc x h; exact h
  | cons kv l ih =>
    intro acc x h
    simp only [List.foldl_cons]
    exact ih _ x (ensure_step_preserves n kv acc x h)

/-- After the synthesis fold every canonical field of the processed
list is present among the column names. -/
lemma ensure_fold_mem (n : Nat) (l : List (String × String)) :
    ∀ (acc : List (String × List Cell)) (c : String), c ∈ l.map Prod.snd →
      c ∈ colNames (l.foldl (fun acc kv =>
        if kv.2 ∈ colNames acc then acc
        else acc ++ [(kv.2, List.replicate n (Cell.str ""))]) acc) := by
  induction l with
  | nil => intro acc c h; cases h
  | cons kv l ih =>
    intro acc c h
    simp only [List.foldl_cons]
    rcases List.mem_cons.mp h with hc | hc
    · subst hc
      apply ensure_fold_preserves
      by_cases hm : kv.2 ∈ colNames acc
      · rw [if_pos hm]; exact hm
      · rw [if_neg hm]
        simp [colNames]
    · exact ih _ c hc

/-- Setting a column never removes a column name. -/
lemma setCol_preserves (name : String) (vals : List Cell)
    (cols : List (String × List Cell)) (x : String) (h : x ∈ colNames cols) :
    x ∈ colNames (setCol name vals cols) := by
  unfold setCol
  by_cases hc : name ∈ colNames cols
  · rw [if_pos hc]
    simp only [colNames, List.map_map]
    rcases List.mem_map.mp h with ⟨p, hp, hpx⟩
    apply List.mem_map.mpr
    refine ⟨p, hp, ?_⟩
    show (if p.1 = name then (name, vals) else p).1 = x
    by_cases hpn : p.1 = name
    · rw [if_pos hpn]
      show name = x
      rw [← hpn]
      exact hpx
    · rw [if_neg hpn]
      exact hpx
  · rw [if_neg hc]
    simp only [colNames, List.map_append]
    exact List.mem_append_left _ h

/-- A successful lookup is unchanged by appending a column. -/
lemma getCol_append (c : String) (q : String × List Cell) :
    ∀ (cols : List (String × List Cell)) (v : List Cell),
      getCol c cols = some v → getCol c (cols ++ [q]) = some v := by
  intro cols
  induction cols with
  | nil => intro v h; cases h
  | cons p cols ih =>
    intro v h
    rw [List.cons_append]
    unfold getCol at h ⊢
    by_cases hpc : p.1 = c
    · rw [if_pos hpc] at h ⊢
      exact h
    · rw [if_neg hpc] at h ⊢
      exact ih v h

/-- A lookup that already succeeds is unchanged by the synthesis
fold (the fold only appends fresh columns at the end). -/
lemma ensure_fold_getCol_stable (n : Nat) (l : List (String × String)) :
    ∀ (acc : List (String × List Cell)) (c : String) (v : List Cell),
      getCol c acc = some v →
      getCol c (l.foldl (fun acc kv =>
        if kv.2 ∈ colNames acc then acc
        else acc ++ [(kv.2, List.replicate n (Cell.str ""))]) acc) = some v := by
  induction l with
  | nil => intro acc c v h; exact h
  | cons kv l ih =>
    intro acc c v h
    simp only [List.foldl_cons]
    apply ih
    by_cases hc : kv.2 ∈ colNames acc
    · rw [if_pos hc]; exact h
    · rw [if_neg hc]
      exact getCol_append c _ acc v h

/-- A missing column is absent from `getCol` as well. -/
lemma getCol_eq_none (c : String) (cols : List (String × List Cell))
    (h : c ∉ colNames cols) : getCol c cols = none := by
  induction cols with
  | nil => rfl
  | cons p cols ih =>
    simp only [colNames, List.map_cons, List.mem_cons] at h
    push_neg at h
    unfold getCol
    rw [if_neg (fun hp => h.1 hp.symm)]
    exact ih (by simpa [colNames] using h.2)

/-- Appending a column under a name that is so far absent makes the
lookup at that name find exactly the appended column. -/
lemma getCol_append_fresh (c : String) (v : List Cell) :
    ∀ (cols : List (String × List Cell)), getCol c cols = none →
      getCol c (cols ++ [(c, v)]) = some v := by
  intro cols
  induction cols with
  | nil =>
    intro _
    show getCol c [(c, v)] = some v
    unfold getCol
    rw [if_pos rfl]
  | cons p cols ih =>
    intro h
    rw [List.cons_append]
    unfold getCol at h ⊢
    by_cases hpc : p.1 = c
    · rw [if_pos hpc] at h
      cases h
    · rw [if_neg hpc] at h ⊢
      exact ih h

/-- When a canonical field is missing, the synthesis fold creates it as
a column of empty strings, and the lookup finds exactly that column. -/
lemma ensure_fold_synthesizes (n : Nat) (l : List (String × String)) :
    ∀ (acc : List (String × List Cell)) (c : String), c ∉ colNames acc →
      c ∈ l.map Prod.snd →
      getCol c (l.foldl (fun acc kv =>
        if kv.2 ∈ colNames acc then acc
        else acc ++ [(kv.2, List.replicate n (Cell.str ""))]) acc) =
        some (List.replicate n (Cell.str "")) := by
  induction l with
  | nil => intro acc c _ h; cases h
  | cons kv l ih =>
    intro acc c hnot h
    simp only [List.foldl_cons]
    by_cases hc : c = kv.2
    · rw [← hc, if_neg hnot]
      apply ensure_fold_getCol_stable
      exact getCol_append_fresh c _ acc (getCol_eq_none c acc hnot)
    · have hmem : c ∈ l.map Prod.snd := by
        simp only [List.map_cons, List.mem_cons] at h
        rcases h with h2 | h2
        · exact absurd h2 hc
        · exact h2
      apply ih
      · by_cases hm : kv.2 ∈ colNames acc
        · rw [if_pos hm]; exact hnot
        · rw [if_neg hm]
          simp only [colNames, List.map_append, List.map_cons, List.map_nil]
          intro hmem2
          rcases List.mem_append.mp hmem2 with h2 | h2
          · exact hnot h2
          · simp only [List.mem_singleton] at h2
            exact hc h2
      · exact hmem

/-- Projection of a literal frame. -/
lemma Frame_cols_mk (n : Nat) (cs : List (String × List Cell)) :
    (Frame.mk n cs).cols = cs := rfl

/-- The columns of a loaded frame, spelled out. -/
lemma load_cols (parse : Cell → Option Int) (now : Int) (f : Frame) :
    (load_and_map_certificates parse now f).cols =
      setCol "Status" (statusCol parse now f)
        (setCol "Days_Until_Expiry" (daysCol parse now f)
          (setCol "Expiry Date" (parsedExpiryCol parse f) (ensuredCols f))) := by
  unfold load_and_map_certificates
  exact Frame_cols_mk _ _

/-- C3: every canonical field name is a column of the loaded frame,
whichever subset of columns the raw input had; a canonical field with
no matching raw column after reconciliation is synthesized as the
empty-string column on every row; and the loader is a total function,
so a missing column never makes it fail. -/
theorem C3_canonical_columns (parse : Cell → Option Int) (now : Int) (f : Frame)
    (c : String) (hc : c ∈ canonicalFields) :
    c ∈ colNames (load_and_map_certificates parse now f).cols ∧
    (c ∉ colNames (reconciledCols f) →
      getCol c (ensuredCols f) = some (List.replicate f.nrows (Cell.str ""))) := by
  constructor
  · rw [load_cols]
    apply setCol_preserves
    apply setCol_preserves
    apply setCol_preserves
    rw [ensuredCols, ensureCols]
    exact ensure_fold_mem f.nrows EXPECTED (reconciledCols f) c hc
  · intro hmiss
    rw [ensuredCols, ensureCols]
    exact ensure_fold_synthesizes f.nrows EXPECTED (reconciledCols f) c hmiss hc

/-- C3 witness: loading a frame that only has a `Supplier` column still
yields a `Certificate` column, synthesized with one empty cell. -/
theorem C3_canonical_columns_witness :
    "Certificate" ∈ colNames (load_and_map_certificates (fun _ => none) 0
      ⟨1, [("Supplier", [Cell.str "Acme"])]⟩).cols ∧
    getCol "Certificate" (ensuredCols ⟨1, [("Supplier", [Cell.str "Acme"])]⟩) =
      some (List.replicate 1 (Cell.str "")) := by
  have h := C3_canonical_columns (fun _ => none) 0 ⟨1, [("Supplier", [Cell.str "Acme"])]⟩
    "Certificate" (by decide)
  exact ⟨h.1, h.2 (by decide)⟩

/-- On a dot-free pattern the regex prefix match is the literal prefix
match. -/
lemma regexAtStart_eq_litAtStart (pat : List Char) (h : ∀ p ∈ pat, p ≠ '.') :
    ∀ s, regexAtStart pat s = litAtStart pat s := by
  induction pat with
  | nil => intro s; cases s <;> rfl
  | cons p ps ih =>
    intro s
    cases s with
    | nil => rfl
    | cons c cs =>
      have hp : (p == '.') = false :=
        beq_eq_false_iff_ne.mpr (h p (List.mem_cons_self p ps))
      show (regexCharMatch p c && regexAtStart ps cs) = ((p == c) && litAtStart ps cs)
      rw [ih (fun q hq => h q (List.mem_cons_of_mem p hq)) cs]
      unfold regexCharMatch
      rw [hp, Bool.false_or]

/-- On a dot-free pattern the regex search is the literal substring
test. -/
lemma regexSearch_eq_litSubstr (pat : List Char) (h : ∀ p ∈ pat, p ≠ '.') :
    ∀ s, regexSearch pat s = litSubstr pat s := by
  intro s
  induction s with
  | nil =>
    show regexAtStart pat [] = litAtStart pat []
    exact regexAtStart_eq_litAtStart pat h []
  | cons c cs ih =>
    show (regexAtStart pat (c :: cs) || regexSearch pat cs) =
      (litAtStart pat (c :: cs) || litSubstr pat cs)
    rw [regexAtStart_eq_litAtStart pat h (c :: cs), ih]

/-- C8 counterexample: with the search text `"."` the record with
supplier "Acme" passes the filter (pandas treats the search as a
regular expression, and `.` matches any character), although "Acme"
does not contain the substring `"."` — so the filter is not substring
containment. -/
theorem C8_counterexample :
    applyFilters ALL_GROWERS "." "All" [⟨Cell.str "Acme", "Valid", []⟩] =
      [⟨Cell.str "Acme", "Valid", []⟩] ∧
    specContainsSubstrCI (Cell.str "Acme") "." = false := by
  refine ⟨by decide, by decide⟩

/-- C8 (amended): the three optional predicates are combined by logical
AND — the filtered result is exactly the records satisfying every
supplied predicate, and the input list is never mutated (filtering is
pure) — but the supplier text predicate is a case-insensitive regular
expression search (`Series.str.contains` defaults to `regex=True`),
which coincides with case-insensitive substring containment exactly
for patterns free of regex metacharacters. -/
theorem C8_filters_amended (selected search show_only : String) (recs : List CertRec) :
    applyFilters selected search show_only recs =
      recs.filter (fun r =>
        (decide (selected = ALL_GROWERS) || decide (r.supplier = Cell.str selected)) &&
        (decide (search = "") || supplierContainsCI r.supplier search) &&
        (decide (show_only = "All") || decide (r.status = show_only))) ∧
    (noMetaPattern search = true →
      ∀ c : Cell, supplierContainsCI c search = specContainsSubstrCI c search) := by
  constructor
  · unfold applyFilters
    by_cases h1 : selected = ALL_GROWERS <;> by_cases h2 : search = "" <;>
      by_cases h3 : show_only = "All" <;>
        simp only [h1, h2, h3, if_true, if_false, decide_True, decide_False,
          Bool.true_or, Bool.false_or, Bool.true_and, Bool.and_true,
          List.filter_filter, reduceIte, List.filter_true] <;>
        first
          | rfl
          | (apply List.filter_congr
             intro r _
             cases decide (r.supplier = Cell.str selected) <;>
               cases supplierContainsCI r.supplier search <;>
               cases decide (r.status = show_only) <;> rfl)
  · intro hm c
    have hdot : ∀ p ∈ pyLower search, p ≠ '.' := by
      intro p hp hpe
      have h2 := List.all_eq_true.mp hm ('.' : Char) (hpe ▸ hp)
      revert h2
      decide
    cases c with
    | na => rfl
    | int v => rfl
    | str s =>
      show regexSearch (pyLower search) (pyLower s) = litSubstr (pyLower search) (pyLower s)
      exact regexSearch_eq_litSubstr (pyLower search) hdot (pyLower s)

/-- C8 witness: a metacharacter-free search, where the regex search and
the substring test agree, with the conjunction filter at concrete
values. -/
theorem C8_filters_amended_witness :
    applyFilters "Acme" "acm" "Valid" [⟨Cell.str "Acme", "Valid", []⟩] =
      [⟨Cell.str "Acme", "Valid", []⟩].filter (fun r =>
        (decide ("Acme" = ALL_GROWERS) || decide (r.supplier = Cell.str "Acme")) &&
        (decide ("acm" = "") || supplierContainsCI r.supplier "acm") &&
        (decide ("Valid" = "All") || decide (r.status = "Valid"))) ∧
    supplierContainsCI (Cell.str "Acme") "acm" = specContainsSubstrCI (Cell.str "Acme") "acm" :=
  ⟨(C8_filters_amended "Acme" "acm" "Valid" [⟨Cell.str "Acme", "Valid", []⟩]).1,
   (C8_filters_amended "Acme" "acm" "Valid" [⟨Cell.str "Acme", "Valid", []⟩]).2
     (by decide) (Cell.str "Acme")⟩

/-- Replacing all columns of a given name makes the lookup at that name
find the new values. -/
lemma getCol_replaceAll (name : String) (vals : List Cell) :
    ∀ (cols : List (String × List Cell)), name ∈ colNames cols →
      getCol name (cols.map (fun p => if p.1 = name then (name, vals) else p)) = some vals := by
  intro cols
  induction cols with
  | nil => intro h; cases h
  | cons p cols ih =>
    intro h
    simp only [List.map_cons]
    by_cases hp : p.1 = name
    · rw [if_pos hp]
      unfold getCol
      rw [if_pos rfl]
    · rw [if_neg hp]
      unfold getCol
      rw [if_neg hp]
      apply ih
      simp only [colNames, List.map_cons, List.mem_cons] at h
      rcases h with h | h
      · exact absurd h.symm hp
      · exact h

/-- Setting a column makes the lookup at its name find exactly the new
values. -/
lemma getCol_setCol_same (name : String) (vals : List Cell)
    (cols : List (String × List Cell)) :
    getCol name (setCol name vals cols) = some vals := by
  unfold setCol
  by_cases hc : name ∈ colNames cols
  · rw [if_pos hc]
    exact getCol_replaceAll name vals cols hc
  · rw [if_neg hc]
    exact getCol_append_fresh name vals cols (getCol_eq_none name cols hc)

/-- The `Status` column of a loaded frame is the computed status
column. -/
lemma load_status_col (parse : Cell → Option Int) (now : Int) (f : Frame) :
    getCol "Status" (load_and_map_certificates parse now f).cols =
      some (statusCol parse now f) := by
  rw [load_cols]
  exact getCol_setCol_same "Status" _ _

/-- Every value of `status_from_days` is one of the four status
strings. -/
lemma status_from_days_mem_enum (d : Option Int) :
    status_from_days d = "Valid" ∨ status_from_days d = "Expiring Soon" ∨
      status_from_days d = "Expired" ∨ status_from_days d = "Unknown" := by
  cases d with
  | none => right; right; right; rfl
  | some v =>
    have he : status_from_days (some v) =
        if v < 0 then "Expired" else if v ≤ EXPIRY_WARNING_DAYS then "Expiring Soon"
        else "Valid" := rfl
    rw [he]
    by_cases h1 : v < 0
    · rw [if_pos h1]; right; right; left; rfl
    · rw [if_neg h1]
      by_cases h2 : v ≤ EXPIRY_WARNING_DAYS
      · rw [if_pos h2]; right; left; rfl
      · rw [if_neg h2]; left; rfl

/-- Every record a loaded frame produces carries one of the four status
strings. -/
lemma recordsOf_status_enum (parse : Cell → Option Int) (now : Int) (f : Frame)
    (r : CertRec) (hr : r ∈ recordsOf (load_and_map_certificates parse now f)) :
    r.status = "Valid" ∨ r.status = "Expiring Soon" ∨ r.status = "Expired" ∨
      r.status = "Unknown" := by
  unfold recordsOf at hr
  rw [load_status_col parse now f] at hr
  simp only [Option.getD_some] at hr
  rcases List.mem_map.mp hr with ⟨p, hp, hpr⟩
  have hst : p.2 ∈ statusCol parse now f := (List.of_mem_zip hp).2
  unfold statusCol at hst
  rcases List.mem_map.mp hst with ⟨c, _, hc⟩
  have : r.status = status_from_days (cellToOptInt c) := by
    rw [← hpr, ← hc]
    rfl
  rw [this]
  exact status_from_days_mem_enum (cellToOptInt c)

/-- The filters only remove rows, never invent them. -/
lemma mem_of_mem_applyFilters (selected search show_only : String)
    (recs : List CertRec) (r : CertRec)
    (h : r ∈ applyFilters selected search show_only recs) : r ∈ recs := by
  unfold applyFilters at h
  by_cases h1 : selected = ALL_GROWERS <;> by_cases h2 : search = "" <;>
    by_cases h3 : show_only = "All" <;>
      simp only [h1, h2, h3, if_true, if_false, reduceIte] at h <;>
      first
        | exact h
        | exact List.mem_of_mem_filter h
        | exact List.mem_of_mem_filter (List.mem_of_mem_filter h)
        | exact List.mem_of_mem_filter (List.mem_of_mem_filter (List.mem_of_mem_filter h))

/-- A list whose members all carry one of the four status strings has
as many elements as the four per-status counts combined. -/
lemma length_eq_sum_status_counts (view : List CertRec)
    (h : ∀ r ∈ view, r.status = "Valid" ∨ r.status = "Expiring Soon" ∨
      r.status = "Expired" ∨ r.status = "Unknown") :
    view.length = view.countP (fun r => decide (r.status = "Valid")) +
      view.countP (fun r => decide (r.status = "Expiring Soon")) +
      view.countP (fun r => decide (r.status = "Expired")) +
      view.countP (fun r => decide (r.status = "Unknown")) := by
  induction view with
  | nil => rfl
  | cons r view ih =>
    have hr := h r (List.mem_cons_self r view)
    have ihv := ih (fun x hx => h x (List.mem_cons_of_mem r hx))
    simp only [List.countP_cons, List.length_cons]
    rcases hr with h1 | h1 | h1 | h1 <;> simp [h1] <;> omega

/-- C10: every record of a loaded frame has one of the four status
strings "Valid", "Expiring Soon", "Expired", "Unknown", and over every
filtered view the total row count is the sum of the four per-status
counts. -/
theorem C10_status_enum_and_counts (parse : Cell → Option Int) (now : Int) (f : Frame)
    (selected search show_only : String) :
    (∀ r ∈ recordsOf (load_and_map_certificates parse now f),
      r.status = "Valid" ∨ r.status = "Expiring Soon" ∨ r.status = "Expired" ∨
        r.status = "Unknown") ∧
    (applyFilters selected search show_only
        (recordsOf (load_and_map_certificates parse now f))).length =
      (applyFilters selected search show_only
        (recordsOf (load_and_map_certificates parse now f))).countP
          (fun r => decide (r.status = "Valid")) +
      (applyFilters selected search show_only
        (recordsOf (load_and_map_certificates parse now f))).countP
          (fun r => decide (r.status = "Expiring Soon")) +
      (applyFilters selected search show_only
        (recordsOf (load_and_map_certificates parse now f))).countP
          (fun r => decide (r.status = "Expired")) +
      (applyFilters selected search show_only
        (recordsOf (load_and_map_certificates parse now f))).countP
          (fun r => decide (r.status = "Unknown")) := by
  constructor
  · exact recordsOf_status_enum parse now f
  · apply length_eq_sum_status_counts
    intro r hr
    exact recordsOf_status_enum parse now f r
      (mem_of_mem_applyFilters selected search show_only _ r hr)

/-- C10 witness: the loaded single-row frame yields the status
"Unknown", which is one of the four strings, and the unfiltered view of
that load satisfies the count identity. -/
theorem C10_status_enum_and_counts_witness :
    ((⟨Cell.str "Acme", "Unknown", []⟩ : CertRec).status = "Valid" ∨
      (⟨Cell.str "Acme", "Unknown", []⟩ : CertRec).status = "Expiring Soon" ∨
      (⟨Cell.str "Acme", "Unknown", []⟩ : CertRec).status = "Expired" ∨
      (⟨Cell.str "Acme", "Unknown", []⟩ : CertRec).status = "Unknown") ∧
    (applyFilters ALL_GROWERS "" "All" (recordsOf (load_and_map_certificates
        (fun _ => none) 0 ⟨1, [("Supplier", [Cell.str "Acme"])]⟩))).length =
      (applyFilters ALL_GROWERS "" "All" (recordsOf (load_and_map_certificates
        (fun _ => none) 0 ⟨1, [("Supplier", [Cell.str "Acme"])]⟩))).countP
          (fun r => decide (r.status = "Valid")) +
      (applyFilters ALL_GROWERS "" "All" (recordsOf (load_and_map_certificates
        (fun _ => none) 0 ⟨1, [("Supplier", [Cell.str "Acme"])]⟩))).countP
          (fun r => decide (r.status = "Expiring Soon")) +
      (applyFilters ALL_GROWERS "" "All" (recordsOf (load_and_map_certificates
        (fun _ => none) 0 ⟨1, [("Supplier", [Cell.str "Acme"])]⟩))).countP
          (fun r => decide (r.status = "Expired")) +
      (applyFilters ALL_GROWERS "" "All" (recordsOf (load_and_map_certificates
        (fun _ => none) 0 ⟨1, [("Supplier", [Cell.str "Acme"])]⟩))).countP
          (fun r => decide (r.status = "Unknown")) :=
  ⟨(C10_status_enum_and_counts (fun _ => none) 0 ⟨1, [("Supplier", [Cell.str "Acme"])]⟩
      ALL_GROWERS "" "All").1 ⟨Cell.str "Acme", "Unknown", []⟩ (by decide),
   (C10_status_enum_and_counts (fun _ => none) 0 ⟨1, [("Supplier", [Cell.str "Acme"])]⟩
      ALL_GROWERS "" "All").2⟩
